import Mathlib

/-!
Verification of the autocomplete widget core:
the `debounce` utility (src/utils/debounce.ts), the `useFetchOnQueryChange`
query-lifecycle hook (src/hooks), and the `highlightMatch` helper
(src/utils).  The JavaScript timer machinery is embedded as a discrete-event
state machine on the single mutable `timerId` reference; React state updates
become a pure state transformer on the visible `{data, loading, loaded,
error}` record; strings are lists of characters.
-/

namespace Autocomplete

/-- State of the single mutable `timerId` reference inside `debounce`.
`null` is `timerId === null`; `pending fireAt args` is a live handle whose
`setTimeout` callback (closing over `args`) will run at absolute time
`fireAt = trigger time + delay`; `expired` is a handle whose timeout has
already run (the callback does not reset `timerId`, so the stale handle
stays in the variable until overwritten or cancelled). -/
inductive TimerHandle (α : Type) where
  | null : TimerHandle α
  | pending (fireAt : Nat) (args : α) : TimerHandle α
  | expired : TimerHandle α
deriving DecidableEq

/-- External events hitting one debounce instance: a call of the debounced
trigger with arguments `args` at absolute time `t`, or a call of `cancel`
at time `t`.  Events are fed in nondecreasing time order. -/
inductive DebounceEvent (α : Type) where
  | trigger (t : Nat) (args : α) : DebounceEvent α
  | cancel (t : Nat) : DebounceEvent α
deriving DecidableEq

/-- Let the host event loop catch up to time `now`: a pending timeout whose
deadline has passed fires (its callback runs `func(...args)`, returned in
the second component) and leaves the stale handle in `timerId`. -/
def fireDue {α : Type} (now : Nat) : TimerHandle α → TimerHandle α × List α
  | .pending fireAt args =>
      if fireAt ≤ now then (.expired, [args]) else (.pending fireAt args, [])
  | h => (h, [])

/-- Body of `debouncedFunction` in debounce.ts, run at time `now`:
`if (timerId !== null) clearTimeout(timerId)` (clearing a live handle
unschedules it; clearing an expired one is a no-op), then
`timerId = setTimeout(() => func(...args), delay)`. -/
def debouncedFunction {α : Type} (delay now : Nat) (args : α) :
    TimerHandle α → TimerHandle α
  | .null => .pending (now + delay) args
  | .pending _ _ => .pending (now + delay) args
  | .expired => .pending (now + delay) args

/-- Body of `debouncedFunction.cancel` in debounce.ts:
`if (timerId !== null) { clearTimeout(timerId); timerId = null; }`. -/
def cancel {α : Type} : TimerHandle α → TimerHandle α
  | .null => .null
  | .pending _ _ => .null
  | .expired => .null

/-- Process one event: first any due timeout fires (the event loop reaches
time `t` before the call at time `t` runs), then the call itself mutates
`timerId`. -/
def stepEvent {α : Type} (delay : Nat) (h : TimerHandle α) :
    DebounceEvent α → TimerHandle α × List α
  | .trigger t args =>
      ((debouncedFunction delay t args (fireDue t h).1), (fireDue t h).2)
  | .cancel t => (cancel (fireDue t h).1, (fireDue t h).2)

/-- Run a time-ordered list of events from handle state `h`, returning the
final handle and the concatenated executions of the wrapped action. -/
def runEvents {α : Type} (delay : Nat) (h : TimerHandle α) :
    List (DebounceEvent α) → TimerHandle α × List α
  | [] => (h, [])
  | e :: es =>
      ((runEvents delay (stepEvent delay h e).1 es).1,
        (stepEvent delay h e).2 ++ (runEvents delay (stepEvent delay h e).1 es).2)

/-- After the last event, time runs on unboundedly, so a still-pending
timeout eventually fires. -/
def flushPending {α : Type} : TimerHandle α → List α
  | .pending _ args => [args]
  | _ => []

/-- Complete history of one debounce instance: start with `timerId = null`,
process the events, let any remaining timeout fire.  The result is the list
of argument tuples the wrapped action was executed with, in order. -/
def runDebounce {α : Type} (delay : Nat) (es : List (DebounceEvent α)) : List α :=
  (runEvents delay TimerHandle.null es).2 ++ flushPending (runEvents delay TimerHandle.null es).1

example : runDebounce 5 [DebounceEvent.trigger 0 (1 : Nat), DebounceEvent.trigger 3 2] = [2] := by
  decide

example : runDebounce 5 [DebounceEvent.trigger 0 (1 : Nat), DebounceEvent.trigger 6 2] = [1, 2] := by
  decide

example : runDebounce 5 [DebounceEvent.trigger 0 (1 : Nat), DebounceEvent.cancel 4] = [] := by
  decide

/-- The visible state `{data, loading, loaded, error}` published by
`useFetchOnQueryChange`.  `data : Option T` models `T | null`,
`error : Option E` models `Error | null`. -/
structure VisState (E T : Type) where
  data : Option T
  loading : Bool
  loaded : Bool
  error : Option E
deriving DecidableEq

/-- Initial hook state: `useState<T | null>(null)`, `useState(false)`,
`useState(false)`, `useState<Error | null>(null)`. -/
def initState {E T : Type} : VisState E T := ⟨none, false, false, none⟩

/-- The async action wrapped by `debounce` inside `useFetchOnQueryChange`,
run to completion.  `fetchData` is the supplied query function with its
promise already settled to `Except.ok response` or `Except.error err`.
Returns the new visible state together with the list of query strings
`fetchData` was invoked with (empty or a singleton). -/
def fetchCycle {E T : Type} (fetchData : String → Except E T) (query : String)
    (s : VisState E T) : VisState E T × List String :=
  if query = "" then
    ({ s with loaded := false, data := none, loading := false }, [])
  else
    let s1 : VisState E T := { s with loaded := false, loading := true, data := none }
    match fetchData query with
    | .ok response =>
        ({ s1 with data := some response, error := none, loading := false, loaded := true },
          [query])
    | .error err =>
        ({ s1 with error := some err, loading := false, loaded := true }, [query])

/-- Queries whose fetch-cycle action body actually ran, for a time-ordered
list of query-string changes `(tᵢ, qᵢ)`.  Each change runs the `useEffect`
body: it builds a fresh debounce instance around the action for `qᵢ` and
triggers it at time `tᵢ`; the effect cleanup cancels that same instance
when the next change arrives at `tᵢ₊₁` (React runs the cleanup before the
next effect).  The last instance is never superseded, so its events are
just the trigger. -/
def controllerFired (D : Nat) : List (Nat × String) → List String
  | [] => []
  | [(t, q)] => runDebounce D [DebounceEvent.trigger t q]
  | (t1, q1) :: (t2, q2) :: rest =>
      runDebounce D [DebounceEvent.trigger t1 q1, DebounceEvent.cancel t2]
        ++ controllerFired D ((t2, q2) :: rest)

example :
    controllerFired 400 [(0, "a"), (100, "ap")] = ["ap"] := by decide

/-- One dispatched request cycle's two interactions with the visible
state, identified by the query string it was dispatched for.
`dispatch q` is the synchronous prefix of the fetch-cycle action run at
timer fire (up to and including the `fetchData` call for a non-empty
query); `settle q` is the continuation run on the event thread when that
call's promise resolves. -/
inductive CycleEvent where
  | dispatch (q : String) : CycleEvent
  | settle (q : String) : CycleEvent
deriving DecidableEq

/-- Synchronous prefix of the fetch-cycle action: for an empty query the
whole body (reset and return, no fetch); for a non-empty query
`setLoaded(false); setLoading(true); setData(null)` before `fetchData` is
invoked. -/
def dispatchPhase {E T : Type} (q : String) (s : VisState E T) : VisState E T :=
  if q = "" then { s with loaded := false, data := none, loading := false }
  else { s with loaded := false, loading := true, data := none }

/-- Continuation after `await fetchData(query)` settles: on success
`setData(response); setError(null)`, on rejection `setError(err)`, and in
both cases finally `setLoading(false); setLoaded(true)`. -/
def settlePhase {E T : Type} (fd : String → Except E T) (q : String)
    (s : VisState E T) : VisState E T :=
  match fd q with
  | .ok response =>
      { s with data := some response, error := none, loading := false, loaded := true }
  | .error err => { s with error := some err, loading := false, loaded := true }

/-- Effect of one cycle event on the visible state. -/
def stepCycleEvent {E T : Type} (fd : String → Except E T) (s : VisState E T) :
    CycleEvent → VisState E T
  | .dispatch q => dispatchPhase q s
  | .settle q => settlePhase fd q s

/-- Visible state after an interleaving (schedule) of cycle dispatches and
promise settlements runs on the single event-processing thread. -/
def runSchedule {E T : Type} (fd : String → Except E T)
    (sched : List CycleEvent) : VisState E T :=
  sched.foldl (stepCycleEvent fd) initState

/-- Completed schedules the source admits, for fired cycles `toDispatch`
with fetches `inflight`: cycles dispatch in firing order (only one timer
is ever armed); a non-empty query's fetch settles exactly once, at any
later point — the hook neither aborts a dispatched fetch nor checks
staleness at resolution, so a superseded cycle's fetch may settle after a
newer cycle's; an empty-query cycle returns before calling `fetchData` and
never settles; at the end every fired cycle has dispatched and every
dispatched fetch has settled. -/
def validFrom : List String → List String → List CycleEvent → Bool
  | toDispatch, inflight, [] => toDispatch.isEmpty && inflight.isEmpty
  | toDispatch, inflight, CycleEvent.dispatch q :: rest =>
      (match toDispatch with
       | [] => false
       | q0 :: qrest =>
           q == q0 &&
             (if q0 = "" then validFrom qrest inflight rest
              else validFrom qrest (inflight ++ [q0]) rest))
  | toDispatch, inflight, CycleEvent.settle q :: rest =>
      inflight.contains q && validFrom toDispatch (inflight.erase q) rest

/-- A completed, admitted schedule for the fired-cycle list `qs`. -/
def scheduleValid (qs : List String) (sched : List CycleEvent) : Bool :=
  validFrom qs [] sched

/-- The serialized schedule: every dispatched fetch settles before the
next cycle dispatches, so no two fetches ever overlap. -/
def serialSchedule : List String → List CycleEvent
  | [] => []
  | q :: rest =>
      (if q = "" then [CycleEvent.dispatch q]
       else [CycleEvent.dispatch q, CycleEvent.settle q]) ++ serialSchedule rest

/-- Character-level model of JavaScript `String.prototype.toLowerCase`
(identical on the ASCII range exercised here). -/
def toLowerCase (s : String) : String := String.mk (s.toList.map Char.toLower)

/-- Whether `pat` occurs at the start of `hay` (JS substring match at one
position). -/
def startsWithChars : List Char → List Char → Bool
  | _, [] => true
  | [], _ :: _ => false
  | c :: cs, d :: ds => c == d && startsWithChars cs ds

/-- Model of JavaScript `String.prototype.indexOf`: index of the first
occurrence of `pat` in `hay`, `none` for `-1`.  The empty pattern matches
at index 0 of every string, as in JS. -/
def indexOfChars : List Char → List Char → Option Nat
  | [], pat => if pat.isEmpty then some 0 else none
  | c :: t, pat =>
      if startsWithChars (c :: t) pat then some 0
      else (indexOfChars t pat).map (· + 1)

/-- `hay.indexOf(pat)` on strings. -/
def jsIndexOf (hay pat : String) : Option Nat := indexOfChars hay.toList pat.toList

/-- Model of JavaScript `text.substring(a, b)` for `a ≤ b` (the only way
`highlightMatch` calls it). -/
def substringJS (s : String) (a b : Nat) : String :=
  String.mk ((s.toList.take b).drop a)

/-- Model of JavaScript `text.substring(a)`. -/
def substringFrom (s : String) (a : Nat) : String := String.mk (s.toList.drop a)

/-- Return value of `highlightMatch`: either the text unmodified (no match)
or the JSX fragment `{before}<strong>{emphasized}</strong>{after}`. -/
inductive HighlightResult where
  | unmodified (text : String) : HighlightResult
  | highlighted (before emphasized after : String) : HighlightResult
deriving DecidableEq

/-- `highlightMatch` from src/utils: find the query (case-insensitively) in
the text; if absent return the text unchanged, otherwise split the text
around the first occurrence, emphasizing `query.length` characters of the
original text starting there. -/
def highlightMatch (text query : String) : HighlightResult :=
  match jsIndexOf (toLowerCase text) (toLowerCase query) with
  | none => .unmodified text
  | some startIndex =>
      .highlighted (substringJS text 0 startIndex)
        (substringJS text startIndex (startIndex + query.length))
        (substringFrom text (startIndex + query.length))

example : highlightMatch "Apple" "ap" = .highlighted "" "Ap" "ple" := by decide

example : highlightMatch "Apple" "xyz" = .unmodified "Apple" := by decide

example : highlightMatch "Apple" "" = .highlighted "" "" "Apple" := by decide

/-- Claim C3: with an empty query string, the fetch-cycle action sets
`loaded = false`, `data = none`, `loading = false`, leaves `error`
unchanged, and returns without invoking the supplied query function
(no query is recorded in the invocation list). -/
theorem fetchCycle_empty_query_resets {E T : Type} (fetchData : String → Except E T)
    (s : VisState E T) :
    (fetchCycle fetchData "" s).1.loaded = false
    ∧ (fetchCycle fetchData "" s).1.data = none
    ∧ (fetchCycle fetchData "" s).1.loading = false
    ∧ (fetchCycle fetchData "" s).1.error = s.error
    ∧ (fetchCycle fetchData "" s).2 = [] := by
  simp [fetchCycle]

/-- Claim C4: for a non-empty query whose fetch settles with a rejection carrying
`e`, the rejection is absorbed into the state (never re-thrown: `fetchCycle`
is total) and the final visible state is `data = none`, `loading = false`,
`loaded = true`, `error = some e`; the query function was invoked once. -/
theorem fetchCycle_rejection {E T : Type} (fetchData : String → Except E T)
    (q : String) (s : VisState E T) (e : E)
    (hq : q ≠ "") (he : fetchData q = .error e) :
    (fetchCycle fetchData q s).1 = ⟨none, false, true, some e⟩
    ∧ (fetchCycle fetchData q s).2 = [q] := by
  unfold fetchCycle
  rw [if_neg hq, he]
  exact ⟨rfl, rfl⟩

/-- Witness for C4 at `q = "x"`, a query function that always rejects. -/
theorem fetchCycle_rejection_witness :
    (fetchCycle (fun _ => Except.error 7) "x" (initState (E := Nat) (T := Nat))).1
        = ⟨none, false, true, some 7⟩
    ∧ (fetchCycle (fun _ => Except.error 7) "x" (initState (E := Nat) (T := Nat))).2 = ["x"] :=
  fetchCycle_rejection (fun _ => Except.error 7) "x" initState 7 (by decide) rfl

/-- Claim C5: for a non-empty query whose fetch settles successfully with
sequence `r`, the final visible state is `data = some r`, `error = none`,
`loading = false`, `loaded = true`; the query function was invoked once. -/
theorem fetchCycle_success {E T : Type} (fetchData : String → Except E T)
    (q : String) (s : VisState E T) (r : T)
    (hq : q ≠ "") (hr : fetchData q = .ok r) :
    (fetchCycle fetchData q s).1 = ⟨some r, false, true, none⟩
    ∧ (fetchCycle fetchData q s).2 = [q] := by
  unfold fetchCycle
  rw [if_neg hq, hr]
  exact ⟨rfl, rfl⟩

/-- Witness for C5 at `q = "ap"`, a query function resolving to `[1]`. -/
theorem fetchCycle_success_witness :
    (fetchCycle (fun _ => Except.ok [1]) "ap" (initState (E := Nat) (T := List Nat))).1
        = ⟨some [1], false, true, none⟩
    ∧ (fetchCycle (fun _ => Except.ok [1]) "ap" (initState (E := Nat) (T := List Nat))).2
        = ["ap"] :=
  fetchCycle_success (fun _ => Except.ok [1]) "ap" initState [1] (by decide) rfl

/-- A trigger call always leaves exactly one freshly armed timeout in
`timerId`, whatever the handle held before. -/
lemma stepEvent_trigger_fst {α : Type} (D t : Nat) (a : α) (h : TimerHandle α) :
    (stepEvent D h (DebounceEvent.trigger t a)).1 = TimerHandle.pending (t + D) a := by
  cases h with
  | null => rfl
  | pending f b =>
      simp only [stepEvent, fireDue]
      split <;> rfl
  | expired => rfl

/-- Running a concatenation of event lists composes handle states and
concatenates executions. -/
lemma runEvents_append {α : Type} (D : Nat) (xs ys : List (DebounceEvent α))
    (h : TimerHandle α) :
    runEvents D h (xs ++ ys)
      = ((runEvents D (runEvents D h xs).1 ys).1,
          (runEvents D h xs).2 ++ (runEvents D (runEvents D h xs).1 ys).2) := by
  induction xs generalizing h with
  | nil => simp [runEvents]
  | cons e es ih =>
      simp only [List.cons_append, runEvents, List.append_eq]
      rw [ih]
      simp [List.append_assoc]

/-- Chain step for C1: from a pending timeout armed by a call at time `t`,
a burst of further calls each within less than `D` of the previous one
keeps re-arming without ever letting the timeout fire, ending pending on
the last call's time and arguments with no executions. -/
lemma runEvents_rapid {α : Type} (D : Nat) (calls : List (Nat × α)) :
    ∀ (t : Nat) (a : α),
      List.Chain' (fun p q : Nat × α => p.1 ≤ q.1 ∧ q.1 < p.1 + D) ((t, a) :: calls) →
      runEvents D (TimerHandle.pending (t + D) a)
          (calls.map fun p => DebounceEvent.trigger p.1 p.2)
        = (TimerHandle.pending ((calls.getLastD (t, a)).1 + D) (calls.getLastD (t, a)).2, []) := by
  induction calls with
  | nil => intro t a _; rfl
  | cons p rest ih =>
      intro t a hch
      obtain ⟨t2, a2⟩ := p
      have h12 : t ≤ t2 ∧ t2 < t + D := List.chain'_cons.mp hch |>.1
      have htail := List.chain'_cons.mp hch |>.2
      have hstep :
          stepEvent D (TimerHandle.pending (t + D) a) (DebounceEvent.trigger t2 a2)
            = (TimerHandle.pending (t2 + D) a2, []) := by
        simp only [stepEvent, fireDue]
        rw [if_neg (by omega)]
        rfl
      simp only [List.map_cons, runEvents, hstep, List.getLastD_cons]
      rw [ih t2 a2 htail]
      simp

/-- Claim C1: a burst of `N ≥ 1` trigger calls (written `(t, a) :: rest`), each
made within less than `D` of the previous one, makes the wrapped action
execute exactly once, with the arguments of the final call; and with zero
trigger calls the action never executes. -/
theorem debounce_burst_fires_once {α : Type} (D t : Nat) (a : α)
    (rest : List (Nat × α))
    (hrapid : List.Chain' (fun p q : Nat × α => p.1 ≤ q.1 ∧ q.1 < p.1 + D)
      ((t, a) :: rest)) :
    runDebounce D (((t, a) :: rest).map fun p => DebounceEvent.trigger p.1 p.2)
        = [(rest.getLastD (t, a)).2]
    ∧ runDebounce D ([] : List (DebounceEvent α)) = [] := by
  constructor
  · have hfirst :
        stepEvent D (TimerHandle.null (α := α)) (DebounceEvent.trigger t a)
          = (TimerHandle.pending (t + D) a, []) := rfl
    simp only [runDebounce, List.map_cons, runEvents, hfirst]
    rw [runEvents_rapid D rest t a hrapid]
    rfl
  · rfl

/-- Witness for C1: two calls 1 apart with delay 5 execute the action once
with the second call's arguments. -/
theorem debounce_burst_fires_once_witness :
    runDebounce 5 [DebounceEvent.trigger 0 (10 : Nat), DebounceEvent.trigger 1 20] = [20]
    ∧ runDebounce 5 ([] : List (DebounceEvent Nat)) = [] := by
  have h := debounce_burst_fires_once 5 0 (10 : Nat) [(1, 20)]
    (List.chain'_cons.mpr ⟨⟨by norm_num, by norm_num⟩, List.chain'_singleton _⟩)
  simpa using h

/-- Claim C7: whatever events came before, if `cancel` is invoked at time `tc`
strictly before the delay `D` has elapsed since the last trigger call at
time `t`, the cycle armed by that trigger never executes (the whole run
produces exactly the executions already emitted before the cancel, and no
flush happens), the internal handle is reset to `null`; and a `cancel`
when no timer is pending leaves the handle untouched and executes
nothing.  `cancel` is a total function, so it never throws. -/
theorem cancel_before_delay {α : Type} (D t tc : Nat) (a : α)
    (es : List (DebounceEvent α)) (hc : tc < t + D) :
    runDebounce D (es ++ [DebounceEvent.trigger t a, DebounceEvent.cancel tc])
        = (runEvents D TimerHandle.null (es ++ [DebounceEvent.trigger t a])).2
    ∧ (runEvents D TimerHandle.null
        (es ++ [DebounceEvent.trigger t a, DebounceEvent.cancel tc])).1 = TimerHandle.null
    ∧ (∀ tn : Nat,
        stepEvent D (TimerHandle.null (α := α)) (DebounceEvent.cancel tn)
          = (TimerHandle.null, [])) := by
  have hsplit : es ++ [DebounceEvent.trigger t a, DebounceEvent.cancel tc]
      = (es ++ [DebounceEvent.trigger t a]) ++ [DebounceEvent.cancel tc] := by
    simp
  have hpend : (runEvents D (TimerHandle.null (α := α))
      (es ++ [DebounceEvent.trigger t a])).1 = TimerHandle.pending (t + D) a := by
    rw [runEvents_append]
    simp [runEvents, stepEvent_trigger_fst]
  have hcstep : stepEvent D (TimerHandle.pending (t + D) a) (DebounceEvent.cancel tc)
      = (TimerHandle.null, []) := by
    simp only [stepEvent, fireDue]
    rw [if_neg (by omega)]
    rfl
  have hrun : runEvents D (TimerHandle.null (α := α))
      (es ++ [DebounceEvent.trigger t a, DebounceEvent.cancel tc])
      = (TimerHandle.null,
          (runEvents D TimerHandle.null (es ++ [DebounceEvent.trigger t a])).2) := by
    rw [hsplit, runEvents_append, hpend]
    simp [runEvents, hcstep]
  refine ⟨?_, by rw [hrun], fun tn => rfl⟩
  rw [runDebounce, hrun]
  simp [flushPending]

/-- Witness for C7: trigger at 0 with delay 5, cancel at 4. -/
theorem cancel_before_delay_witness :
    runDebounce 5 ([] ++ [DebounceEvent.trigger 0 (1 : Nat), DebounceEvent.cancel 4])
        = (runEvents 5 TimerHandle.null ([] ++ [DebounceEvent.trigger 0 (1 : Nat)])).2
    ∧ (runEvents 5 TimerHandle.null
        ([] ++ [DebounceEvent.trigger 0 (1 : Nat), DebounceEvent.cancel 4])).1
        = TimerHandle.null
    ∧ (∀ tn : Nat,
        stepEvent 5 (TimerHandle.null (α := Nat)) (DebounceEvent.cancel tn)
          = (TimerHandle.null, [])) :=
  cancel_before_delay 5 0 4 1 [] (by norm_num)

/-- Claim C10: a fired timeout leaves the stale handle in `timerId` rather than
resetting it to `null`; a later trigger clears the expired handle and arms
exactly one fresh pending timer without re-executing anything; a later
cancel clears it to `null` without emitting or retracting any execution;
and a past execution is never suppressed: two triggers more than the delay
apart both execute, in order. -/
theorem timerId_not_reset_after_fire {α : Type} (D f now t t1 t2 : Nat)
    (a b a1 a2 : α) (hf : f ≤ now) (hgap : t1 + D ≤ t2) :
    fireDue now (TimerHandle.pending f a) = (TimerHandle.expired, [a])
    ∧ stepEvent D (TimerHandle.expired (α := α)) (DebounceEvent.trigger t b)
        = (TimerHandle.pending (t + D) b, [])
    ∧ stepEvent D (TimerHandle.expired (α := α)) (DebounceEvent.cancel t)
        = (TimerHandle.null, [])
    ∧ runDebounce D [DebounceEvent.trigger t1 a1, DebounceEvent.trigger t2 a2]
        = [a1, a2] := by
  refine ⟨by simp [fireDue, hf], rfl, rfl, ?_⟩
  have hstep2 : stepEvent D (TimerHandle.pending (t1 + D) a1)
      (DebounceEvent.trigger t2 a2) = (TimerHandle.pending (t2 + D) a2, [a1]) := by
    simp only [stepEvent, fireDue]
    rw [if_pos hgap]
    rfl
  have hstep1 : stepEvent D (TimerHandle.null (α := α)) (DebounceEvent.trigger t1 a1)
      = (TimerHandle.pending (t1 + D) a1, []) := rfl
  simp only [runDebounce, runEvents, hstep1, hstep2, flushPending]
  simp

/-- Witness for C10: timer armed for time 3 fires by time 4; triggers at 0
and 10 with delay 5 both execute. -/
theorem timerId_not_reset_after_fire_witness :
    fireDue 4 (TimerHandle.pending 3 (9 : Nat)) = (TimerHandle.expired, [9])
    ∧ stepEvent 5 (TimerHandle.expired (α := Nat)) (DebounceEvent.trigger 7 8)
        = (TimerHandle.pending (7 + 5) 8, [])
    ∧ stepEvent 5 (TimerHandle.expired (α := Nat)) (DebounceEvent.cancel 7)
        = (TimerHandle.null, [])
    ∧ runDebounce 5 [DebounceEvent.trigger 0 (1 : Nat), DebounceEvent.trigger 10 2]
        = [1, 2] :=
  timerId_not_reset_after_fire 5 3 4 7 0 10 9 8 1 2 (by norm_num) (by norm_num)

/-- Claim C2: for two query-string changes `q1` at `t1` and `q2` at `t2 < t1 + D`,
the controller dispatches exactly one fetch cycle, the one for `q2`: the
cleanup of the `q1` effect cancels its pending timer before the delay
elapses, so the superseded cycle's action body never executes (its
debounce instance runs nothing at all). -/
theorem supersede_cancels_previous_cycle (D t1 t2 : Nat) (q1 q2 : String)
    (hlt : t2 < t1 + D) :
    controllerFired D [(t1, q1), (t2, q2)] = [q2]
    ∧ runDebounce D [DebounceEvent.trigger t1 q1, DebounceEvent.cancel t2] = [] := by
  have hq1 : runDebounce D [DebounceEvent.trigger t1 q1, DebounceEvent.cancel t2] = [] := by
    have hcstep : stepEvent D (TimerHandle.pending (t1 + D) q1) (DebounceEvent.cancel t2)
        = (TimerHandle.null, []) := by
      simp only [stepEvent, fireDue]
      rw [if_neg (by omega)]
      rfl
    have hstep1 : stepEvent D (TimerHandle.null (α := String)) (DebounceEvent.trigger t1 q1)
        = (TimerHandle.pending (t1 + D) q1, []) := rfl
    simp only [runDebounce, runEvents, hstep1, hcstep, flushPending]
    simp
  refine ⟨?_, hq1⟩
  simp only [controllerFired, hq1]
  rfl

/-- Witness for C2: changes at times 0 and 100 with delay 400. -/
theorem supersede_cancels_previous_cycle_witness :
    controllerFired 400 [(0, "a"), (100, "ap")] = ["ap"]
    ∧ runDebounce 400 [DebounceEvent.trigger 0 "a", DebounceEvent.cancel 100] = [] :=
  supersede_cancels_previous_cycle 400 0 100 "a" "ap" (by norm_num)

/-- Folding settled fetch cycles over a start state ends either at the
start state (no cycle fired) or at the output of the last cycle's action
applied to some intermediate state. -/
lemma foldl_fetchCycle_last {E T : Type} (fetchData : String → Except E T)
    (qs : List String) (s0 : VisState E T) :
    (qs = [] ∧ qs.foldl (fun s q => (fetchCycle fetchData q s).1) s0 = s0)
    ∨ (∃ q s1, qs.getLast? = some q
        ∧ qs.foldl (fun s q => (fetchCycle fetchData q s).1) s0
            = (fetchCycle fetchData q s1).1) := by
  induction qs generalizing s0 with
  | nil => exact Or.inl ⟨rfl, rfl⟩
  | cons q rest ih =>
      rcases ih ((fetchCycle fetchData q s0).1) with ⟨hnil, heq⟩ | ⟨q2, s1, hlast, heq⟩
      · subst hnil
        exact Or.inr ⟨q, s0, rfl, heq⟩
      · refine Or.inr ⟨q2, s1, ?_, heq⟩
        rcases rest with _ | ⟨r, rs⟩
        · simp at hlast
        · rwa [List.getLast?_cons_cons]

/-- A settled fetch cycle always ends with `loading = false`. -/
lemma fetchCycle_loading_false {E T : Type} (fetchData : String → Except E T)
    (q : String) (s : VisState E T) :
    (fetchCycle fetchData q s).1.loading = false := by
  unfold fetchCycle
  split
  · rfl
  · cases fetchData q <;> rfl

/-- A settled fetch cycle ends with `loaded = true` exactly when the query
was non-empty. -/
lemma fetchCycle_loaded_iff {E T : Type} (fetchData : String → Except E T)
    (q : String) (s : VisState E T) :
    (fetchCycle fetchData q s).1.loaded = true ↔ q ≠ "" := by
  unfold fetchCycle
  split
  · rename_i hq
    simp [hq]
  · rename_i hq
    cases fetchData q <;> simp [hq]

/-- A fetch cycle that runs to completion is its dispatch phase followed,
for a non-empty query, by its settlement; an empty-query cycle is its
dispatch phase alone. -/
lemma fetchCycle_fst_eq_phases {E T : Type} (fd : String → Except E T)
    (q : String) (s : VisState E T) :
    (fetchCycle fd q s).1
      = if q = "" then dispatchPhase q s
        else settlePhase fd q (dispatchPhase q s) := by
  by_cases hq : q = ""
  · rw [if_pos hq]
    unfold fetchCycle dispatchPhase
    rw [if_pos hq, if_pos hq]
  · rw [if_neg hq]
    unfold fetchCycle settlePhase dispatchPhase
    rw [if_neg hq, if_neg hq]
    cases fd q <;> rfl

/-- Folding schedule events ends at the start state or at the effect of
the last event applied to some intermediate state. -/
lemma foldl_schedule_last {E T : Type} (fd : String → Except E T)
    (sched : List CycleEvent) (s0 : VisState E T) :
    (sched = [] ∧ sched.foldl (stepCycleEvent fd) s0 = s0)
    ∨ (∃ e s1, sched.getLast? = some e
        ∧ sched.foldl (stepCycleEvent fd) s0 = stepCycleEvent fd s1 e) := by
  induction sched generalizing s0 with
  | nil => exact Or.inl ⟨rfl, rfl⟩
  | cons e rest ih =>
      rcases ih (stepCycleEvent fd s0 e) with ⟨hnil, heq⟩ | ⟨e2, s1, hlast, heq⟩
      · subst hnil
        exact Or.inr ⟨e, s0, rfl, heq⟩
      · refine Or.inr ⟨e2, s1, ?_, heq⟩
        rcases rest with _ | ⟨r, rs⟩
        · simp at hlast
        · rwa [List.getLast?_cons_cons]

/-- No cycle event ever leaves both `loading` and `loaded` true. -/
lemma stepCycleEvent_not_both {E T : Type} (fd : String → Except E T)
    (s : VisState E T) (e : CycleEvent) :
    ¬((stepCycleEvent fd s e).loading = true
        ∧ (stepCycleEvent fd s e).loaded = true) := by
  cases e with
  | dispatch q =>
      show ¬((dispatchPhase q s).loading = true ∧ (dispatchPhase q s).loaded = true)
      unfold dispatchPhase
      split <;> simp
  | settle q =>
      show ¬((settlePhase fd q s).loading = true ∧ (settlePhase fd q s).loaded = true)
      unfold settlePhase
      cases hfd : fd q <;> simp

/-- Only a settlement leaves `loaded` true. -/
lemma stepCycleEvent_loaded {E T : Type} (fd : String → Except E T)
    (s : VisState E T) (e : CycleEvent)
    (h : (stepCycleEvent fd s e).loaded = true) : ∃ q, e = CycleEvent.settle q := by
  cases e with
  | dispatch q =>
      exfalso
      have h2 : (dispatchPhase q s).loaded = true := h
      unfold dispatchPhase at h2
      split at h2 <;> simp at h2
  | settle q => exact ⟨q, rfl⟩

/-- The serialized schedule computes exactly the sequential composition of
completed fetch cycles. -/
lemma foldl_serialSchedule {E T : Type} (fd : String → Except E T)
    (qs : List String) :
    ∀ s0 : VisState E T,
      (serialSchedule qs).foldl (stepCycleEvent fd) s0
        = qs.foldl (fun s q => (fetchCycle fd q s).1) s0 := by
  induction qs with
  | nil => intro s0; rfl
  | cons q rest ih =>
      intro s0
      by_cases hq : q = ""
      · have hblock : serialSchedule (q :: rest)
            = CycleEvent.dispatch q :: serialSchedule rest := by
          rw [serialSchedule, if_pos hq]
          rfl
        have hx : stepCycleEvent fd s0 (CycleEvent.dispatch q) = (fetchCycle fd q s0).1 := by
          rw [fetchCycle_fst_eq_phases, if_pos hq]
          rfl
        rw [hblock, List.foldl_cons, hx, ih, List.foldl_cons]
      · have hblock : serialSchedule (q :: rest)
            = CycleEvent.dispatch q :: CycleEvent.settle q :: serialSchedule rest := by
          rw [serialSchedule, if_neg hq]
          rfl
        have hx : stepCycleEvent fd (stepCycleEvent fd s0 (CycleEvent.dispatch q))
            (CycleEvent.settle q) = (fetchCycle fd q s0).1 := by
          rw [fetchCycle_fst_eq_phases, if_neg hq]
          rfl
        rw [hblock, List.foldl_cons, List.foldl_cons, hx, ih, List.foldl_cons]

/-- Claim C6 amended: under every settlement schedule the code admits, the
visible state never has `loading` and `loaded` true together; whenever
`loaded` is true the `data`/`error` pair is exactly what the most recently
settled cycle's settlement wrote — which may be a discarded cycle whose
un-aborted fetch resolved late; and under serialized settlement (every
dispatched fetch settles before the next cycle dispatches) the state with
`loaded` true is that of the most recently settled, non-discarded cycle,
which ran for a non-empty query. -/
theorem visible_state_invariant_amended {E T : Type} (fd : String → Except E T)
    (D : Nat) (changes : List (Nat × String)) (sched : List CycleEvent) :
    ¬((runSchedule fd sched).loading = true ∧ (runSchedule fd sched).loaded = true)
    ∧ ((runSchedule fd sched).loaded = true →
        ∃ q s1, sched.getLast? = some (CycleEvent.settle q)
          ∧ runSchedule fd sched = settlePhase fd q s1)
    ∧ runSchedule fd (serialSchedule (controllerFired D changes))
        = (controllerFired D changes).foldl (fun s q => (fetchCycle fd q s).1) initState
    ∧ (((controllerFired D changes).foldl (fun s q => (fetchCycle fd q s).1)
            initState).loaded = true →
        ∃ q s1, (controllerFired D changes).getLast? = some q ∧ q ≠ ""
          ∧ (controllerFired D changes).foldl (fun s q => (fetchCycle fd q s).1) initState
              = (fetchCycle fd q s1).1) := by
  refine ⟨?_, ?_, ?_, ?_⟩
  · rcases foldl_schedule_last fd sched (initState (E := E) (T := T)) with
      ⟨hnil, heq⟩ | ⟨e, s1, hlast, heq⟩
    · rw [runSchedule, heq]
      simp [initState]
    · rw [runSchedule, heq]
      exact stepCycleEvent_not_both fd s1 e
  · rcases foldl_schedule_last fd sched (initState (E := E) (T := T)) with
      ⟨hnil, heq⟩ | ⟨e, s1, hlast, heq⟩
    · rw [runSchedule, heq]
      intro hl
      simp [initState] at hl
    · rw [runSchedule, heq]
      intro hl
      obtain ⟨q, rfl⟩ := stepCycleEvent_loaded fd s1 e hl
      exact ⟨q, s1, hlast, rfl⟩
  · exact foldl_serialSchedule fd (controllerFired D changes) initState
  · rcases foldl_fetchCycle_last fd (controllerFired D changes)
        (initState (E := E) (T := T)) with ⟨hnil, heq⟩ | ⟨q, s1, hlast, heq⟩
    · rw [heq]
      intro hl
      simp [initState] at hl
    · rw [heq]
      intro hl
      exact ⟨q, s1, hlast, (fetchCycle_loaded_iff fd q s1).mp hl, rfl⟩

/-- Witness for the amended C6: one cycle for `"a"`, dispatched then
settled, exercised through both implications of the theorem. -/
theorem visible_state_invariant_amended_witness :
    (∃ q s1, ([CycleEvent.dispatch "a", CycleEvent.settle "a"].getLast?
          = some (CycleEvent.settle q))
      ∧ runSchedule (fun _ => Except.ok ([1] : List Nat) (ε := Nat))
          [CycleEvent.dispatch "a", CycleEvent.settle "a"]
          = settlePhase (fun _ => Except.ok ([1] : List Nat) (ε := Nat)) q s1)
    ∧ (∃ q s1, (controllerFired 5 [(0, "a")]).getLast? = some q ∧ q ≠ ""
        ∧ (controllerFired 5 [(0, "a")]).foldl
            (fun s q => (fetchCycle (fun _ => Except.ok ([1] : List Nat) (ε := Nat)) q s).1)
            initState
          = (fetchCycle (fun _ => Except.ok ([1] : List Nat) (ε := Nat)) q s1).1) :=
  ⟨(visible_state_invariant_amended (fun _ => Except.ok ([1] : List Nat) (ε := Nat))
      5 [(0, "a")] [CycleEvent.dispatch "a", CycleEvent.settle "a"]).2.1 (by decide),
    (visible_state_invariant_amended (fun _ => Except.ok ([1] : List Nat) (ε := Nat))
      5 [(0, "a")] [CycleEvent.dispatch "a", CycleEvent.settle "a"]).2.2.2 (by decide)⟩

/-- Counterexample to claim C6 as stated.  Fired cycles `["a", "ap"]`
(changes at times 0 and 450 with delay 400: the `"a"` timer fires at 400,
before the change at 450, so its fetch is dispatched and the cycle is then
discarded by the supersession; the cleanup only clears the already-expired
timer).  The code admits the schedule in which the discarded `"a"` fetch
— never aborted, never staleness-checked — resolves after the `"ap"`
cycle settled.  The final state, reached after a cycle settles, has
`loaded = true` with the discarded cycle's data `[1]`, while the most
recently settled non-discarded cycle (`"ap"`, whose settled state the
prefix run exhibits) wrote data `[2]`: the `data`/`error` pair does not
reflect the most recently settled, non-discarded cycle. -/
theorem visible_state_invariant_counterexample :
    controllerFired 400 [(0, "a"), (450, "ap")] = ["a", "ap"]
    ∧ scheduleValid ["a", "ap"]
        [CycleEvent.dispatch "a", CycleEvent.dispatch "ap",
          CycleEvent.settle "ap", CycleEvent.settle "a"] = true
    ∧ runSchedule
        (fun q => (if q = "a" then Except.ok [1] else Except.ok [2] : Except Nat (List Nat)))
        [CycleEvent.dispatch "a", CycleEvent.dispatch "ap",
          CycleEvent.settle "ap", CycleEvent.settle "a"]
        = ⟨some [1], false, true, none⟩
    ∧ runSchedule
        (fun q => (if q = "a" then Except.ok [1] else Except.ok [2] : Except Nat (List Nat)))
        [CycleEvent.dispatch "a", CycleEvent.dispatch "ap", CycleEvent.settle "ap"]
        = ⟨some [2], false, true, none⟩
    ∧ (⟨some [1], false, true, none⟩ : VisState Nat (List Nat))
        ≠ ⟨some [2], false, true, none⟩ := by
  refine ⟨by decide, by decide, by decide, by decide, by decide⟩

/-- A successful prefix match is no longer than the haystack. -/
lemma startsWithChars_length (hay pat : List Char)
    (h : startsWithChars hay pat = true) : pat.length ≤ hay.length := by
  induction hay generalizing pat with
  | nil =>
      cases pat with
      | nil => simp
      | cons d ds => simp [startsWithChars] at h
  | cons c cs ih =>
      cases pat with
      | nil => simp
      | cons d ds =>
          simp only [startsWithChars, Bool.and_eq_true] at h
          simpa using Nat.succ_le_succ (ih ds h.2)

/-- Characterization of `indexOfChars`: a returned index is a match
position, is the least one, and leaves room for the whole pattern. -/
lemma indexOfChars_spec (hay pat : List Char) :
    ∀ i : Nat, indexOfChars hay pat = some i →
      startsWithChars (hay.drop i) pat = true
      ∧ (∀ j, j < i → startsWithChars (hay.drop j) pat = false)
      ∧ i + pat.length ≤ hay.length := by
  induction hay with
  | nil =>
      intro i h
      unfold indexOfChars at h
      by_cases hp : pat.isEmpty
      · rw [if_pos hp] at h
        obtain rfl : (0 : Nat) = i := Option.some.inj h
        rw [List.isEmpty_iff] at hp
        subst hp
        exact ⟨rfl, fun j hj => absurd hj (by omega), by simp⟩
      · rw [if_neg hp] at h
        exact absurd h (by simp)
  | cons c t ih =>
      intro i h
      unfold indexOfChars at h
      by_cases hs : startsWithChars (c :: t) pat = true
      · rw [if_pos hs] at h
        obtain rfl : (0 : Nat) = i := Option.some.inj h
        exact ⟨hs, fun j hj => absurd hj (by omega),
          by simpa using startsWithChars_length _ _ hs⟩
      · rw [if_neg hs] at h
        obtain ⟨i0, hi0, rfl⟩ := Option.map_eq_some'.mp h
        obtain ⟨h1, h2, h3⟩ := ih i0 hi0
        refine ⟨by simpa [List.drop_succ_cons] using h1, ?_, by simp; omega⟩
        intro j hj
        cases j with
        | zero => simpa using Bool.not_eq_true _ |>.mp hs
        | succ j0 => simpa [List.drop_succ_cons] using h2 j0 (by omega)

/-- The empty pattern matches at index 0 of every haystack, as JS
`indexOf` does. -/
lemma indexOfChars_nil_pat (hay : List Char) : indexOfChars hay [] = some 0 := by
  cases hay <;> simp [indexOfChars, startsWithChars]

/-- A case-insensitive occurrence of `query` at position `j` of `text`,
exactly as `highlightMatch` searches for one. -/
def occursAt (text query : String) (j : Nat) : Prop :=
  startsWithChars ((toLowerCase text).toList.drop j) (toLowerCase query).toList = true

/-- Rebuilding a string from its character list is the identity. -/
lemma mk_toList (s : String) : String.mk s.toList = s := rfl

/-- String append is list append on the character lists. -/
lemma mk_append (xs ys : List Char) :
    String.mk xs ++ String.mk ys = String.mk (xs ++ ys) := rfl

/-- String length is the character-list length. -/
lemma length_mk (xs : List Char) : (String.mk xs).length = xs.length := rfl

/-- Claim C9: whenever the (case-insensitive) search inside `highlightMatch`
finds `query` in `text` at index `i`, the result splits `text` into a
prefix of length `i`, an emphasized segment of length `query.length`, and
a suffix, whose concatenation is exactly `text`; the occurrence at `i` is
the first one (no earlier position matches); and the empty query, which
matches at position 0 of every text, yields an empty emphasized segment
followed by the whole text rather than the unmodified text. -/
theorem highlightMatch_split (text query : String) (i : Nat)
    (hfind : jsIndexOf (toLowerCase text) (toLowerCase query) = some i) :
    (∃ pre mid post, highlightMatch text query = HighlightResult.highlighted pre mid post
        ∧ mid.length = query.length
        ∧ pre.length = i
        ∧ pre ++ mid ++ post = text)
    ∧ occursAt text query i
    ∧ (∀ j, j < i → ¬ occursAt text query j)
    ∧ (∀ s : String, highlightMatch s "" = HighlightResult.highlighted "" "" s) := by
  obtain ⟨hstart, hmin, hle⟩ :=
    indexOfChars_spec (toLowerCase text).toList (toLowerCase query).toList i hfind
  have hlenhay : (toLowerCase text).toList.length = text.toList.length := by
    simp [toLowerCase]
  have hlenpat : (toLowerCase query).toList.length = query.length := by
    simp [toLowerCase]
  have hroom : i + query.length ≤ text.toList.length := by
    rw [hlenhay, hlenpat] at hle
    exact hle
  refine ⟨?_, hstart, ?_, ?_⟩
  · refine ⟨substringJS text 0 i, substringJS text i (i + query.length),
      substringFrom text (i + query.length), ?_, ?_, ?_, ?_⟩
    · simp only [highlightMatch, hfind]
    · simp only [substringJS, length_mk, List.length_drop, List.length_take]
      omega
    · simp only [substringJS, length_mk, List.length_drop, List.drop_zero,
        List.length_take]
      omega
    · have hlist : (text.toList.take i
            ++ (text.toList.take (i + query.length)).drop i)
            ++ text.toList.drop (i + query.length) = text.toList := by
        have h1 : text.toList.take i = (text.toList.take (i + query.length)).take i := by
          rw [List.take_take]
          congr 1
          omega
        rw [h1, List.take_append_drop, List.take_append_drop]
      have hcat : substringJS text 0 i ++ substringJS text i (i + query.length)
            ++ substringFrom text (i + query.length)
          = String.mk (((text.toList.take i).drop 0
              ++ (text.toList.take (i + query.length)).drop i)
              ++ text.toList.drop (i + query.length)) := rfl
      rw [hcat, List.drop_zero, hlist]
      rfl
  · intro j hj hocc
    rw [occursAt, hmin j hj] at hocc
    exact Bool.false_ne_true hocc
  · intro s
    have h0 : jsIndexOf (toLowerCase s) (toLowerCase "") = some 0 := by
      have hnil : (toLowerCase "").toList = [] := rfl
      rw [jsIndexOf, hnil]
      exact indexOfChars_nil_pat _
    simp only [highlightMatch, h0]
    rfl

/-- Witness for C9 at `text = "Apple"`, `query = "ap"`, found at index 0. -/
theorem highlightMatch_split_witness :
    (∃ pre mid post, highlightMatch "Apple" "ap" = HighlightResult.highlighted pre mid post
        ∧ mid.length = ("ap").length
        ∧ pre.length = 0
        ∧ pre ++ mid ++ post = "Apple")
    ∧ occursAt "Apple" "ap" 0
    ∧ (∀ j, j < 0 → ¬ occursAt "Apple" "ap" j)
    ∧ (∀ s : String, highlightMatch s "" = HighlightResult.highlighted "" "" s) :=
  highlightMatch_split "Apple" "ap" 0 (by decide)

/-- Claim C8: `highlightMatch "Apple" "ap"` emphasizes `"Ap"` (case-insensitive
match, original casing preserved) leaving `""` before and `"ple"` after
unemphasized, and `highlightMatch "Apple" "xyz"` returns the text
unmodified. -/
theorem highlightMatch_examples :
    highlightMatch "Apple" "ap" = HighlightResult.highlighted "" "Ap" "ple"
    ∧ highlightMatch "Apple" "xyz" = HighlightResult.unmodified "Apple" := by
  constructor <;> decide

end Autocomplete
